import Mathlib

/-!
# Verification of the gotosocial asynchronous event fan-out engine

Shallow embedding of the parts of the gotosocial repository that the
specification's claims talk about:

* the `WebLayout` enum and its `String` / `ParseWebLayout` functions
  (from `internal/gtsmodel`);
* the v1 filter form validation `validateNormalizeCreateUpdateFilter`
  (from `internal/api/client/filters/v1`);
* the asynchronous event fan-out engine (Recipient Resolver, Delivery
  Queue, Delivery Workers, Retry Scheduler, Stream Hub and Stream
  Session).  The engine's implementation files are not part of the
  source slice, so those components are modelled from the specification
  text, as noted on each definition.
-/

namespace Gts

open List

/-! ## WebLayout (from `internal/gtsmodel`, real source) -/

/-- Go `type enumType int` (the underlying integer enum type in gtsmodel). -/
abbrev enumType := Int

/-- Go `type WebLayout enumType`. -/
abbrev WebLayout := enumType

/-- `WebLayoutUnknown WebLayout = 0`. -/
def WebLayoutUnknown : WebLayout := 0

/-- `WebLayoutMicroblog WebLayout = 1`. -/
def WebLayoutMicroblog : WebLayout := 1

/-- `WebLayoutGallery WebLayout = 2`. -/
def WebLayoutGallery : WebLayout := 2

/-- Go `strings.ToLower`, modelled as the per-character lowercase map
over the string's characters (the ASCII case mapping, which covers
every recognized input of `ParseWebLayout`). -/
def stringToLower (s : String) : String := ⟨s.data.map Char.toLower⟩

/-- Go method `func (wrm WebLayout) String() string`.  The `default`
branch executes `panic("invalid web layout")`; a panic is modelled as
`Except.error` carrying the panic message. -/
def webLayoutString (wrm : WebLayout) : Except String String :=
  if wrm = WebLayoutMicroblog then .ok "microblog"
  else if wrm = WebLayoutGallery then .ok "gallery"
  else .error "invalid web layout"

/-- Go `func ParseWebLayout(in string) WebLayout`, a switch on
`strings.ToLower(in)`. -/
def ParseWebLayout (input : String) : WebLayout :=
  if stringToLower input = "microblog" then WebLayoutMicroblog
  else if stringToLower input = "gallery" then WebLayoutGallery
  else WebLayoutUnknown

/-! ## Filter v1 form validation (from `internal/api/client/filters/v1`,
real source).  The helper validators live in `internal/validate` and
`internal/api/util`, which are outside the source slice; they are taken
as parameters, so every theorem below holds for any behaviour of
those helpers. -/

/-- Go `util.Ptr(v)`: a fresh pointer to `v`; a nillable pointer is an
`Option`. -/
def Ptr {α : Type} (v : α) : Option α := some v

/-- Go `util.PtrOrValue(p, v)`: dereference `p` if non-nil, else `v`. -/
def PtrOrValue {α : Type} (p : Option α) (v : α) : α := p.getD v

/-- The fields of `apimodel.FilterCreateUpdateRequestV1` used by
`validateNormalizeCreateUpdateFilter`.  `ExpiresInI` is the nullable
JSON field (`some` = specified); `ExpiresIn` the normalized duration. -/
structure FilterCreateUpdateRequestV1 where
  Phrase : String
  Context : List String
  WholeWord : Option Bool
  Irreversible : Option Bool
  ExpiresInI : Option String
  ExpiresIn : Option Int
deriving Repr, DecidableEq

/-- The external helpers called by `validateNormalizeCreateUpdateFilter`
(`validate.FilterKeyword`, `validate.FilterTitle`,
`validate.FilterContexts`, `apiutil.ParseNullableDuration`), outside the
source slice and hence abstract.  A `some err` result models a non-nil
Go error. -/
structure FilterHelpers where
  FilterKeyword : String → Option String
  FilterTitle : String → Option String
  FilterContexts : List String → Option String
  ParseNullableDuration : String → Except String (Option Int)

/-- Go `validateNormalizeCreateUpdateFilter(form)`.  The Go function
mutates `form` through a pointer and returns an error; modelled as
returning the mutated form on success (`Except.ok`) and the error
message on failure (`Except.error`). -/
def validateNormalizeCreateUpdateFilter (V : FilterHelpers)
    (form : FilterCreateUpdateRequestV1) :
    Except String FilterCreateUpdateRequestV1 :=
  match V.FilterKeyword form.Phrase with
  | some err => .error err
  | none =>
  match V.FilterTitle form.Phrase with
  | some err => .error err
  | none =>
  match V.FilterContexts form.Context with
  | some err => .error err
  | none =>
  -- Apply defaults for missing fields.
  let form := { form with
    WholeWord := Ptr (PtrOrValue form.WholeWord false)
    Irreversible := Ptr (PtrOrValue form.Irreversible false) }
  if PtrOrValue form.Irreversible false = true then
    .error "irreversible aka server-side drop filters are not supported yet"
  else
    match form.ExpiresInI with
    | some v =>
      match V.ParseNullableDuration v with
      | .error e => .error e
      | .ok d => .ok { form with ExpiresIn := d }
    | none => .ok form

/-! ## Fan-out engine data model.

The engine's implementation is not in the available source slice, so all
definitions below are modelled from the specification (§2–§5, §8). -/

/-- Modelled from the spec: §3 Event — immutable record with a kind, an
originating actor identifier, an opaque payload reference, a
monotonically increasing sequence number assigned at ingestion, and a
creation timestamp. -/
structure Event where
  kind : String
  actor : String
  payloadRef : String
  seq : Nat
  timestamp : Nat
deriving Repr, DecidableEq

/-- Modelled from the spec: §3 Target — polymorphic over RemoteInbox
(network endpoint + shared/non-shared inbox flag) and LocalStream
(account identifier). -/
inductive Target where
  | RemoteInbox (endpoint : String) (shared : Bool)
  | LocalStream (accountID : String)
deriving Repr, DecidableEq

/-- Modelled from the spec: §3 — Target equality is by kind +
destination; this projects the destination. -/
def Target.dest : Target → String
  | .RemoteInbox endpoint _ => endpoint
  | .LocalStream accountID => accountID

/-- Modelled from the spec: §3 DeliveryTask — (event, target, attempt
count, next-eligible-time, last error). -/
structure DeliveryTask where
  event : Event
  target : Target
  attempts : Nat
  nextEligible : Nat
  lastError : Option String
deriving Repr, DecidableEq

/-- Modelled from the spec: §3 — one task per (event, target) pair; the
pair is the task's identity. -/
def taskKey (t : DeliveryTask) : Event × Target := (t.event, t.target)

/-! ## Recipient Resolver (modelled from the spec, §4.1 and §6) -/

/-- Modelled from the spec: §6 — a follower as resolved through the
actor graph collaborator: an actor reference together with the physical
inbox URL it delivers to and the `IsInboxShared` flag. -/
structure Follower where
  id : String
  inbox : String
  sharedInbox : Bool
deriving Repr, DecidableEq

/-- Modelled from the spec: §6 — the actor graph collaborator.
`followers` returns `none` when the storage lookup itself fails (which
`Resolve` surfaces as a `ResolutionError`); `localSubscribers` lists the
accounts with live stream interest. -/
structure ActorGraph where
  followers : String → Option (List Follower)
  localSubscribers : String → List String

/-- Modelled from the spec: §4.1 — deduplication of remote targets that
share a delivery endpoint: if two followers resolve to the same physical
inbox URL, only one RemoteInbox target is produced.  `seen` accumulates
the inbox URLs already emitted. -/
def dedupRemoteAux (seen : List String) : List Follower → List Target
  | [] => []
  | f :: rest =>
    if f.inbox ∈ seen then dedupRemoteAux seen rest
    else Target.RemoteInbox f.inbox f.sharedInbox :: dedupRemoteAux (f.inbox :: seen) rest

/-- Modelled from the spec: §4.1 — one RemoteInbox target per distinct
physical inbox URL among the followers. -/
def dedupRemote (fs : List Follower) : List Target := dedupRemoteAux [] fs

/-- Modelled from the spec: §4.1 — `Resolve(event) → (remoteTargets,
localTargets)`; fails with `ResolutionError` exactly when the actor
graph lookup fails; zero targets is not an error. -/
def Resolve (g : ActorGraph) (e : Event) :
    Except String (List Target × List Target) :=
  match g.followers e.actor with
  | none => .error "ResolutionError"
  | some fs =>
    .ok (dedupRemote fs, (g.localSubscribers e.actor).map Target.LocalStream)

/-! ## Delivery Worker outcome classification (modelled from the spec, §4.3) -/

/-- Modelled from the spec: §4.3 — the observable outcome of one
delivery attempt: an HTTP status code, or a network / timeout error. -/
inductive DeliveryOutcome where
  | status (code : Nat)
  | networkError
  | timeoutError
deriving Repr, DecidableEq

/-- Modelled from the spec: §4.3 and §7 — the worker's classification of
an attempt outcome. -/
inductive OutcomeClass where
  | success
  | permanent
  | transient
deriving Repr, DecidableEq

/-- Modelled from the spec: §4.3 — outcome classification: 2xx success;
4xx excluding 429 permanent rejection; 429 / 5xx / network / timeout
transient. -/
def classifyOutcome : DeliveryOutcome → OutcomeClass
  | .networkError => .transient
  | .timeoutError => .transient
  | .status code =>
    if 200 ≤ code ∧ code ≤ 299 then .success
    else if code = 429 then .transient
    else if 400 ≤ code ∧ code ≤ 499 then .permanent
    else .transient

/-- Modelled from the spec: §4.3 — what the worker does with the task
after one attempt: discard on success, move to dead-letter (recording
how many attempts were made) on permanent rejection, hand to the Retry
Scheduler on transient failure. -/
inductive WorkerDisposition where
  | discarded
  | deadLettered (attemptsMade : Nat)
  | handedToRetryScheduler (t : DeliveryTask)
deriving Repr, DecidableEq

/-- Modelled from the spec: §4.3 — a Delivery Worker processes the
outcome of the attempt it just performed on `t`. -/
def workerProcess (t : DeliveryTask) (out : DeliveryOutcome) : WorkerDisposition :=
  match classifyOutcome out with
  | .success => .discarded
  | .permanent => .deadLettered (t.attempts + 1)
  | .transient => .handedToRetryScheduler t

/-! ## Retry Scheduler (modelled from the spec, §4.4) -/

/-- Modelled from the spec: §4.4 — retry policy: base backoff, backoff
cap, maximum attempt count, and the jitter drawn for each attempt
(modelled as an arbitrary function of the attempt index, since jitter is
random). -/
structure RetryPolicy where
  baseBackoff : Nat
  maxBackoff : Nat
  maxAttempts : Nat
  jitter : Nat → Nat

/-- Modelled from the spec: §4.4 — the capped exponential backoff
component `min(maxBackoff, baseBackoff * 2^attempt)`. -/
def backoff (p : RetryPolicy) (attempt : Nat) : Nat :=
  min p.maxBackoff (p.baseBackoff * 2 ^ attempt)

/-- Modelled from the spec: §4.4 — the full delay applied when retrying
after the given attempt: capped exponential backoff plus jitter. -/
def retryDelay (p : RetryPolicy) (attempt : Nat) : Nat :=
  backoff p attempt + p.jitter attempt

/-- Modelled from the spec: §4.4 — result of `Retry`: the task is
re-submitted to the Delivery Queue, or dead-lettered once the maximum
attempt count is reached. -/
inductive RetryResult where
  | requeued (t : DeliveryTask)
  | deadLettered (t : DeliveryTask)
deriving Repr, DecidableEq

/-- Modelled from the spec: §4.4 — `Retry(task, error)`: computes
`next-eligible-time = now + min(maxBackoff, baseBackoff * 2^attempt) +
jitter`, increments the attempt count and re-submits, except that after
the configured maximum attempt count the task is dead-lettered instead
of retried further. -/
def Retry (p : RetryPolicy) (now : Nat) (task : DeliveryTask) (err : String) :
    RetryResult :=
  if p.maxAttempts ≤ task.attempts + 1 then
    .deadLettered { task with attempts := task.attempts + 1, lastError := some err }
  else
    .requeued { task with
      attempts := task.attempts + 1
      nextEligible := now + retryDelay p task.attempts
      lastError := some err }

/-- Modelled from the spec: §8 — the task state after `n` consecutive
transient failures, all handed to the Retry Scheduler: `some t` when the
task is still live (requeued each time), `none` once it has been
dead-lettered (a dead-lettered task is never retried again, §3). -/
def afterFailures (p : RetryPolicy) (now : Nat) (err : String)
    (task : DeliveryTask) : Nat → Option DeliveryTask
  | 0 => some task
  | n + 1 =>
    match afterFailures p now err task n with
    | none => none
    | some t =>
      match Retry p now t err with
      | .requeued t2 => some t2
      | .deadLettered _ => none

/-! ## Stream Session and Stream Hub (modelled from the spec, §3 and §4.5) -/

/-- Modelled from the spec: §4.5 — the per-session state machine
`Open → Draining → Closed`. -/
inductive SessionState where
  | Open
  | Draining
  | Closed
deriving Repr, DecidableEq

/-- Modelled from the spec: §3 StreamSession — subscribed account
identifier, bounded message buffer, lifecycle state.  `observed` is the
(ghost) log of events already drained to the client over the live
connection, used to state ordering properties. -/
structure StreamSession where
  sessionID : Nat
  accountID : String
  state : SessionState
  buffer : List Event
  observed : List Event
deriving Repr, DecidableEq

/-- Modelled from the spec: §4.5 — a freshly subscribed session: open,
empty buffer. -/
def newSession (sid : Nat) (accountID : String) : StreamSession :=
  { sessionID := sid, accountID := accountID, state := .Open,
    buffer := [], observed := [] }

/-- Modelled from the spec: §4.5 and §7 — non-blocking push of an event
into a session's buffer.  A push on a `Closed` session is silently
dropped (`SessionClosed` is not an error to the publisher).  If the
buffer is at the high-water mark `hwm`, the oldest buffered event is
evicted to make room for the new one. -/
def pushSession (hwm : Nat) (e : Event) (ss : StreamSession) : StreamSession :=
  if ss.state = .Closed then ss
  else if hwm ≤ ss.buffer.length then
    { ss with buffer := ss.buffer.tail ++ [e] }
  else
    { ss with buffer := ss.buffer ++ [e] }

/-- Modelled from the spec: §4.5 — closing a session: it becomes
`Closed` and its buffer is released immediately. -/
def closeSession (ss : StreamSession) : StreamSession :=
  { ss with state := .Closed, buffer := [] }

/-- Modelled from the spec: §2 and §4.5 — the Stream Hub's state: the
session table, plus the (ghost) trace of all events submitted to the
engine so far, used to state ordering properties. -/
structure HubState where
  sessions : List StreamSession
  submitted : List Event
deriving Repr, DecidableEq

/-- Modelled from the spec: the hub before any event or connection. -/
def initHub : HubState := { sessions := [], submitted := [] }

/-- Modelled from the spec: §4.5, §5 and §6 — one step of the Stream Hub:

* `submit`: an event enters the engine (exactly once, §6) and `Publish`
  multicasts it to every session subscribed to a target account via a
  non-blocking push; the ingestion boundary guarantees sequence numbers
  strictly increasing per originating account (§3, §6), recorded as the
  hypothesis `hseq`;
* `subscribe`: a new session is attached for an account;
* `deliver`: the transport drains the oldest buffered event of one
  session to its client;
* `close`: one session is closed.

Each constructor carries an equation pinning down the successor state. -/
inductive HubStep (hwm : Nat) : HubState → HubState → Prop
  | submit (s s2 : HubState) (e : Event) (targets : List String)
      (hseq : ∀ e0 ∈ s.submitted, e0.actor = e.actor → e0.seq < e.seq)
      (h2 : s2 = { sessions := s.sessions.map fun ss =>
                     if ss.accountID ∈ targets then pushSession hwm e ss else ss,
                   submitted := s.submitted ++ [e] }) :
      HubStep hwm s s2
  | subscribe (s s2 : HubState) (sid : Nat) (accountID : String)
      (h2 : s2 = { s with sessions := s.sessions ++ [newSession sid accountID] }) :
      HubStep hwm s s2
  | deliver (s s2 : HubState) (l1 l2 : List StreamSession) (ss : StreamSession)
      (e : Event) (rest : List Event)
      (hsp : s.sessions = l1 ++ ss :: l2) (hbuf : ss.buffer = e :: rest)
      (h2 : s2 = { s with sessions :=
                     l1 ++ { ss with buffer := rest, observed := ss.observed ++ [e] } :: l2 }) :
      HubStep hwm s s2
  | close (s s2 : HubState) (l1 l2 : List StreamSession) (ss : StreamSession)
      (hsp : s.sessions = l1 ++ ss :: l2)
      (h2 : s2 = { s with sessions := l1 ++ closeSession ss :: l2 }) :
      HubStep hwm s s2

/-- Modelled from the spec: hub states reachable from the initial state
through engine steps. -/
inductive HubReachable (hwm : Nat) : HubState → Prop
  | init : HubReachable hwm initHub
  | step (s s2 : HubState) (h : HubReachable hwm s) (hs : HubStep hwm s s2) :
      HubReachable hwm s2

/-! ## Delivery Queue (modelled from the spec, §4.2) -/

/-- Modelled from the spec: §4.2 and §5 — the cross-worker shared state
of the Delivery Queue: the pending FIFO and the set of tasks currently
checked out by workers (`workerID × task`). -/
structure QueueState where
  pending : List DeliveryTask
  inFlight : List (Nat × DeliveryTask)
deriving Repr, DecidableEq

/-- Modelled from the spec: the queue before any task. -/
def initQueue : QueueState := { pending := [], inFlight := [] }

/-- Modelled from the spec: §4.2 — one step of the Delivery Queue:

* `enqueue`: a task is admitted; §3's "one task per (event, target)
  pair" (tasks are created once by the Recipient Resolver) is recorded
  as the freshness hypothesis `hfresh`;
* `dequeue`: a worker checks out the task at the head of the pending
  FIFO; the task moves from pending to in-flight;
* `complete`: a worker finishes its checked-out task
  (`Complete(task, outcome)`), removing it from in-flight.

Each constructor carries an equation pinning down the successor state. -/
inductive QueueStep : QueueState → QueueState → Prop
  | enqueue (s s2 : QueueState) (t : DeliveryTask)
      (hfresh : ∀ t0 ∈ s.pending ++ s.inFlight.map Prod.snd, taskKey t0 ≠ taskKey t)
      (h2 : s2 = { s with pending := s.pending ++ [t] }) :
      QueueStep s s2
  | dequeue (s s2 : QueueState) (w : Nat) (t : DeliveryTask) (rest : List DeliveryTask)
      (hp : s.pending = t :: rest)
      (h2 : s2 = { pending := rest, inFlight := s.inFlight ++ [(w, t)] }) :
      QueueStep s s2
  | complete (s s2 : QueueState) (w : Nat) (t : DeliveryTask)
      (l1 l2 : List (Nat × DeliveryTask))
      (hf : s.inFlight = l1 ++ (w, t) :: l2)
      (h2 : s2 = { s with inFlight := l1 ++ l2 }) :
      QueueStep s s2

/-- Modelled from the spec: queue states reachable from the empty queue. -/
inductive QueueReachable : QueueState → Prop
  | init : QueueReachable initQueue
  | step (s s2 : QueueState) (h : QueueReachable s) (hs : QueueStep s s2) :
      QueueReachable s2

/-! ## Invariant predicates used by the proofs -/

/-- The events a session has seen (drained plus still buffered) form a
subsequence of the global submission trace: the hub neither invents nor
reorders events for any one session. -/
def sessionTraceOK (submitted : List Event) (ss : StreamSession) : Prop :=
  List.Sublist (ss.observed ++ ss.buffer) submitted

/-- Per-account strict monotonicity of sequence numbers along the
submission trace (guaranteed by the ingestion boundary, spec §3, §6). -/
def perAccountSorted (submitted : List Event) : Prop :=
  ∀ a : String,
    ((submitted.filter fun e => e.actor == a).map Event.seq).Pairwise (· < ·)

/-- The Stream Hub invariant behind the per-account ordering guarantee. -/
def hubInv (s : HubState) : Prop :=
  (∀ ss ∈ s.sessions, sessionTraceOK s.submitted ss) ∧ perAccountSorted s.submitted

/-- Every session buffer is within the high-water mark. -/
def buffersBounded (hwm : Nat) (s : HubState) : Prop :=
  ∀ ss ∈ s.sessions, ss.buffer.length ≤ hwm

/-- The task keys present anywhere in the Delivery Queue (pending or
checked out) are pairwise distinct: one task per (event, target). -/
def queueKeysNodup (s : QueueState) : Prop :=
  ((s.pending ++ s.inFlight.map Prod.snd).map taskKey).Nodup

/-! ## Concrete data used by the witnesses -/

/-- A concrete event of account alice, sequence number 1. -/
def evA1 : Event := ⟨"Create", "alice", "status1", 1, 10⟩

/-- A concrete event of account alice, sequence number 2. -/
def evA2 : Event := ⟨"Create", "alice", "status2", 2, 11⟩

/-- A concrete event of account bob. -/
def evB1 : Event := ⟨"Like", "bob", "status9", 7, 12⟩

/-- Intermediate hub state: one fresh session for alice. -/
def hubT1 : HubState := ⟨[newSession 1 "alice"], []⟩

/-- Intermediate hub state: alice's first event buffered. -/
def hubT2 : HubState := ⟨[⟨1, "alice", .Open, [evA1], []⟩], [evA1]⟩

/-- Intermediate hub state: both of alice's events buffered. -/
def hubT3 : HubState := ⟨[⟨1, "alice", .Open, [evA1, evA2], []⟩], [evA1, evA2]⟩

/-- Final hub state of the witness trace: the oldest event has been
drained to the client, the second is still buffered. -/
def hubW : HubState := ⟨[⟨1, "alice", .Open, [evA2], [evA1]⟩], [evA1, evA2]⟩

/-- The session of `hubW`. -/
def hubWSession : StreamSession := ⟨1, "alice", .Open, [evA2], [evA1]⟩

/-- A concrete open session whose buffer holds 2 events. -/
def fullSession : StreamSession := ⟨2, "bob", .Open, [evA1, evA2], []⟩

/-- A concrete delivery task for the witnesses. -/
def taskW : DeliveryTask :=
  ⟨evA1, Target.RemoteInbox "https://one.example/inbox" true, 0, 0, none⟩

/-- A second delivery task, with a different target. -/
def taskW2 : DeliveryTask :=
  ⟨evA1, Target.RemoteInbox "https://two.example/inbox" false, 0, 0, none⟩

/-- Intermediate queue state: both tasks pending. -/
def queueT1 : QueueState := ⟨[taskW], []⟩

/-- Intermediate queue state: both tasks pending. -/
def queueT2 : QueueState := ⟨[taskW, taskW2], []⟩

/-- Intermediate queue state: worker 1 holds the first task. -/
def queueT3 : QueueState := ⟨[taskW2], [(1, taskW)]⟩

/-- Final queue state of the witness trace: both tasks checked out by
different workers. -/
def queueW : QueueState := ⟨[], [(1, taskW), (2, taskW2)]⟩

/-- A concrete retry policy with constant zero jitter. -/
def policyW : RetryPolicy := ⟨2, 3600, 5, fun _ => 0⟩

/-- A concrete retry policy whose jitter draw is larger for the first
attempt than for the second; used to refute unconditional monotonicity
of the full (jittered) retry delays. -/
def policyCx : RetryPolicy := ⟨1, 1000, 10, fun n => if n = 0 then 10 else 0⟩

/-- The followers of the spec §8 fan-out scenario: 3 followers, two
sharing one remote inbox and one with a separate inbox. -/
def scenarioFollowers : List Follower :=
  [⟨"f1", "https://one.example/inbox", true⟩,
   ⟨"f2", "https://one.example/inbox", true⟩,
   ⟨"f3", "https://two.example/inbox", false⟩]

/-- The actor graph of the spec §8 fan-out scenario: account A has the
followers above plus one local live subscriber. -/
def scenarioGraph : ActorGraph :=
  ⟨fun a => if a = "accountA" then some scenarioFollowers else some [],
   fun a => if a = "accountA" then ["localSub"] else []⟩

/-- An actor graph with no followers and no subscribers at all. -/
def noFollowerGraph : ActorGraph := ⟨fun _ => some [], fun _ => []⟩

/-- The posted event of the spec §8 fan-out scenario. -/
def scenarioEvent : Event := ⟨"Create", "accountA", "statusA", 1, 0⟩

/-- Filter helpers that accept everything; used by the witnesses. -/
def helpersW : FilterHelpers :=
  ⟨fun _ => none, fun _ => none, fun _ => none, fun _ => .ok none⟩

/-- A concrete filter form with all optional fields unset. -/
def filterFormW : FilterCreateUpdateRequestV1 :=
  ⟨"badword", ["home"], none, none, none, none⟩

/-- `filterFormW` with `Irreversible` pointing to `true`. -/
def filterFormIrr : FilterCreateUpdateRequestV1 :=
  ⟨"badword", ["home"], none, some true, none, none⟩

/-- `filterFormW` after validation and normalization. -/
def filterFormWNormalized : FilterCreateUpdateRequestV1 :=
  ⟨"badword", ["home"], some false, some false, none, none⟩

/-! ## Theorems -/

/-- C8: for `WebLayoutMicroblog` and `WebLayoutGallery`,
`ParseWebLayout (wl.String()) = wl`; and for every input string,
`ParseWebLayout` is case-insensitive: it returns `WebLayoutMicroblog`
exactly when the lowercased input is "microblog", `WebLayoutGallery`
exactly when it is "gallery", and `WebLayoutUnknown` otherwise. -/
theorem parseWebLayout_roundtrip_case_insensitive :
    (∀ wl : WebLayout, wl = WebLayoutMicroblog ∨ wl = WebLayoutGallery →
      ∃ s, webLayoutString wl = .ok s ∧ ParseWebLayout s = wl) ∧
    (∀ input : String,
      (ParseWebLayout input = WebLayoutMicroblog ↔ stringToLower input = "microblog") ∧
      (ParseWebLayout input = WebLayoutGallery ↔ stringToLower input = "gallery") ∧
      (stringToLower input ≠ "microblog" → stringToLower input ≠ "gallery" →
        ParseWebLayout input = WebLayoutUnknown)) := by
  constructor
  · rintro wl (rfl | rfl)
    · exact ⟨"microblog", rfl, by decide⟩
    · exact ⟨"gallery", rfl, by decide⟩
  · intro input
    unfold ParseWebLayout
    by_cases h1 : stringToLower input = "microblog"
    · have h2 : stringToLower input ≠ "gallery" := by rw [h1]; decide
      simp [h1, h2, WebLayoutMicroblog, WebLayoutGallery, WebLayoutUnknown]
    · by_cases h2 : stringToLower input = "gallery"
      · simp [h1, h2, WebLayoutMicroblog, WebLayoutGallery, WebLayoutUnknown]
      · simp [h1, h2, WebLayoutMicroblog, WebLayoutGallery, WebLayoutUnknown]

/-- Witness for C8 at the concrete layouts and input "MICROBLOG". -/
theorem parseWebLayout_roundtrip_witness :
    (∃ s, webLayoutString WebLayoutGallery = .ok s ∧ ParseWebLayout s = WebLayoutGallery) ∧
    (ParseWebLayout "MICROBLOG" = WebLayoutMicroblog ↔ stringToLower "MICROBLOG" = "microblog") :=
  ⟨parseWebLayout_roundtrip_case_insensitive.1 WebLayoutGallery (Or.inr rfl),
   (parseWebLayout_roundtrip_case_insensitive.2 "MICROBLOG").1⟩

/-- C9: `WebLayout.String` panics with "invalid web layout" on every
value other than `WebLayoutMicroblog` and `WebLayoutGallery`, including
`WebLayoutUnknown`, which `ParseWebLayout` returns for every
unrecognized input. -/
theorem webLayoutString_panics_on_unknown :
    (∀ wl : WebLayout, wl ≠ WebLayoutMicroblog → wl ≠ WebLayoutGallery →
      webLayoutString wl = .error "invalid web layout") ∧
    webLayoutString WebLayoutUnknown = .error "invalid web layout" ∧
    (∀ input : String, stringToLower input ≠ "microblog" → stringToLower input ≠ "gallery" →
      ParseWebLayout input = WebLayoutUnknown ∧
      webLayoutString (ParseWebLayout input) = .error "invalid web layout") := by
  refine ⟨?_, rfl, ?_⟩
  · intro wl h1 h2
    unfold webLayoutString
    rw [if_neg h1, if_neg h2]
  · intro input h1 h2
    have hp : ParseWebLayout input = WebLayoutUnknown := by
      unfold ParseWebLayout
      rw [if_neg h1, if_neg h2]
    exact ⟨hp, by rw [hp]; rfl⟩

/-- Witness for C9 at the out-of-range value 5 and the input "bogus". -/
theorem webLayoutString_panics_witness :
    webLayoutString 5 = .error "invalid web layout" ∧
    (ParseWebLayout "bogus" = WebLayoutUnknown ∧
      webLayoutString (ParseWebLayout "bogus") = .error "invalid web layout") :=
  ⟨webLayoutString_panics_on_unknown.1 5 (by decide) (by decide),
   webLayoutString_panics_on_unknown.2.2 "bogus" (by decide) (by decide)⟩

/-- C6: closing a Stream Session is idempotent, releases the buffer
immediately with no double-release, and a push attempted on a closed
session is silently dropped (the session is returned unchanged, no
error reaches the publisher). -/
theorem closeSessionIdempotent :
    (∀ ss : StreamSession, closeSession (closeSession ss) = closeSession ss) ∧
    (∀ ss : StreamSession,
      (closeSession ss).state = SessionState.Closed ∧ (closeSession ss).buffer = []) ∧
    (∀ (hwm : Nat) (e : Event) (ss : StreamSession), ss.state = SessionState.Closed →
      pushSession hwm e ss = ss) := by
  refine ⟨fun ss => rfl, fun ss => ⟨rfl, rfl⟩, ?_⟩
  intro hwm e ss h
  unfold pushSession
  rw [if_pos h]

/-- Witness for C6: a push on a concretely closed session is dropped. -/
theorem closeSessionIdempotent_witness :
    pushSession 4 evB1 (closeSession fullSession) = closeSession fullSession :=
  closeSessionIdempotent.2.2 4 evB1 (closeSession fullSession) rfl

/-- C4: the Delivery Worker's outcome classification: 2xx completes
and discards the task; 4xx other than 429 dead-letters it after
exactly one attempt with no retry; 429, 5xx and network/timeout
errors hand it to the Retry Scheduler. -/
theorem workerOutcomeClassification :
    (∀ (t : DeliveryTask) (code : Nat), 200 ≤ code → code ≤ 299 →
      workerProcess t (.status code) = .discarded) ∧
    (∀ (t : DeliveryTask) (code : Nat), 400 ≤ code → code ≤ 499 → code ≠ 429 →
      workerProcess t (.status code) = .deadLettered (t.attempts + 1)) ∧
    (∀ (t : DeliveryTask) (code : Nat), 400 ≤ code → code ≤ 499 → code ≠ 429 →
      t.attempts = 0 → workerProcess t (.status code) = .deadLettered 1) ∧
    (∀ (t : DeliveryTask) (code : Nat), 500 ≤ code → code ≤ 599 →
      workerProcess t (.status code) = .handedToRetryScheduler t) ∧
    (∀ t : DeliveryTask,
      workerProcess t (.status 429) = .handedToRetryScheduler t ∧
      workerProcess t .networkError = .handedToRetryScheduler t ∧
      workerProcess t .timeoutError = .handedToRetryScheduler t) := by
  refine ⟨?_, ?_, ?_, ?_, fun t => ⟨rfl, rfl, rfl⟩⟩
  · intro t code h1 h2
    have hc : classifyOutcome (.status code) = .success := by
      simp only [classifyOutcome]
      rw [if_pos ⟨h1, h2⟩]
    simp [workerProcess, hc]
  · intro t code h1 h2 h3
    have hc : classifyOutcome (.status code) = .permanent := by
      simp only [classifyOutcome]
      rw [if_neg (by omega), if_neg h3, if_pos ⟨h1, h2⟩]
    simp [workerProcess, hc]
  · intro t code h1 h2 h3 h4
    have hc : classifyOutcome (.status code) = .permanent := by
      simp only [classifyOutcome]
      rw [if_neg (by omega), if_neg h3, if_pos ⟨h1, h2⟩]
    simp [workerProcess, hc, h4]
  · intro t code h1 h2
    have hc : classifyOutcome (.status code) = .transient := by
      simp only [classifyOutcome]
      rw [if_neg (by omega), if_neg (by omega), if_neg (by omega)]
    simp [workerProcess, hc]

/-- Witness for C4 at status codes 202, 410, 503 and 429. -/
theorem workerOutcomeClassification_witness :
    workerProcess taskW (.status 202) = .discarded ∧
    workerProcess taskW (.status 410) = .deadLettered (taskW.attempts + 1) ∧
    workerProcess taskW (.status 410) = .deadLettered 1 ∧
    workerProcess taskW (.status 503) = .handedToRetryScheduler taskW ∧
    workerProcess taskW (.status 429) = .handedToRetryScheduler taskW :=
  ⟨workerOutcomeClassification.1 taskW 202 (by decide) (by decide),
   workerOutcomeClassification.2.1 taskW 410 (by decide) (by decide) (by decide),
   workerOutcomeClassification.2.2.1 taskW 410 (by decide) (by decide) (by decide) (by decide),
   workerOutcomeClassification.2.2.2.1 taskW 503 (by decide) (by decide),
   (workerOutcomeClassification.2.2.2.2 taskW).1⟩

/-- C10: whenever `validateNormalizeCreateUpdateFilter` returns nil, the
normalized form's `WholeWord` and `Irreversible` are non-nil and
`*Irreversible` is false; and every form whose `Irreversible` points to
true is rejected with a non-nil error — for any behaviour of the
external helper validators. -/
theorem validateNormalizeFilterPostcondition :
    (∀ (V : FilterHelpers) (form form2 : FilterCreateUpdateRequestV1),
      validateNormalizeCreateUpdateFilter V form = .ok form2 →
      form2.WholeWord.isSome ∧ form2.Irreversible = some false) ∧
    (∀ (V : FilterHelpers) (form : FilterCreateUpdateRequestV1),
      form.Irreversible = some true →
      ∃ e, validateNormalizeCreateUpdateFilter V form = .error e) := by
  constructor
  · intro V form form2 h
    unfold validateNormalizeCreateUpdateFilter at h
    rcases hK : V.FilterKeyword form.Phrase with _ | err <;> rw [hK] at h
    case some => cases h
    rcases hT : V.FilterTitle form.Phrase with _ | err <;> rw [hT] at h
    case some => cases h
    rcases hC : V.FilterContexts form.Context with _ | err <;> rw [hC] at h
    case some => cases h
    simp only at h
    by_cases hI : PtrOrValue form.Irreversible false = true
    · rw [if_pos ?_] at h
      · cases h
      · simpa [Ptr, PtrOrValue] using hI
    · rw [if_neg ?_] at h
      · rcases hE : form.ExpiresInI with _ | v <;> simp only [hE] at h
        · cases h
          simp only [Ptr, PtrOrValue] at hI ⊢
          simp only [Option.getD_some, Option.isSome_some, Option.some.injEq, true_and]
          simpa using hI
        · rcases hP : V.ParseNullableDuration v with e | d <;> rw [hP] at h
          · cases h
          · cases h
            simp only [Ptr, PtrOrValue] at hI ⊢
            simp only [Option.getD_some, Option.isSome_some, Option.some.injEq, true_and]
            simpa using hI
      · simpa [Ptr, PtrOrValue] using hI
  · intro V form h
    unfold validateNormalizeCreateUpdateFilter
    rcases hK : V.FilterKeyword form.Phrase with _ | err
    · rcases hT : V.FilterTitle form.Phrase with _ | err
      · rcases hC : V.FilterContexts form.Context with _ | err
        · refine ⟨"irreversible aka server-side drop filters are not supported yet", ?_⟩
          simp only
          rw [if_pos]
          simp [Ptr, PtrOrValue, h]
        · exact ⟨err, by simp⟩
      · exact ⟨err, by simp⟩
    · exact ⟨err, by simp⟩

/-- Witness for C10 with trivially accepting helpers: a fully-defaulted
form normalizes with `WholeWord`/`Irreversible` set, and a form with
`Irreversible = true` errors. -/
theorem validateNormalizeFilter_witness :
    (filterFormWNormalized.WholeWord.isSome ∧
      filterFormWNormalized.Irreversible = some false) ∧
    (∃ e, validateNormalizeCreateUpdateFilter helpersW filterFormIrr = .error e) :=
  ⟨validateNormalizeFilterPostcondition.1 helpersW filterFormW filterFormWNormalized rfl,
   validateNormalizeFilterPostcondition.2 helpersW filterFormIrr rfl⟩

/-- The inbox URLs produced by `dedupRemoteAux seen fs` are exactly the
follower inbox URLs not already in `seen`. -/
theorem dedupRemoteAux_dest_mem (fs : List Follower) :
    ∀ (seen : List String) (u : String),
      u ∈ (dedupRemoteAux seen fs).map Target.dest ↔
        u ∉ seen ∧ u ∈ fs.map Follower.inbox := by
  induction fs with
  | nil => intro seen u; simp [dedupRemoteAux]
  | cons f rest ih =>
    intro seen u
    by_cases hmem : f.inbox ∈ seen
    · rw [show dedupRemoteAux seen (f :: rest) = dedupRemoteAux seen rest by
        simp [dedupRemoteAux, hmem]]
      rw [ih seen u]
      simp only [List.map_cons, List.mem_cons]
      constructor
      · rintro ⟨hns, hmem2⟩
        exact ⟨hns, Or.inr hmem2⟩
      · rintro ⟨hns, heq | hmem2⟩
        · exact absurd (heq ▸ hmem) hns
        · exact ⟨hns, hmem2⟩
    · rw [show dedupRemoteAux seen (f :: rest) =
          Target.RemoteInbox f.inbox f.sharedInbox :: dedupRemoteAux (f.inbox :: seen) rest by
        simp [dedupRemoteAux, hmem]]
      simp only [List.map_cons, List.mem_cons, Target.dest, ih]
      constructor
      · rintro (rfl | ⟨hns, hmem2⟩)
        · exact ⟨hmem, Or.inl rfl⟩
        · simp only [List.mem_cons, not_or] at hns
          exact ⟨hns.2, Or.inr hmem2⟩
      · rintro ⟨hns, heq | hmem2⟩
        · exact Or.inl heq
        · by_cases hu : u = f.inbox
          · exact Or.inl hu
          · exact Or.inr ⟨by simp only [List.mem_cons, not_or]; exact ⟨hu, hns⟩, hmem2⟩

/-- `dedupRemoteAux` never produces the same inbox URL twice. -/
theorem dedupRemoteAux_dest_nodup (fs : List Follower) :
    ∀ seen : List String, ((dedupRemoteAux seen fs).map Target.dest).Nodup := by
  induction fs with
  | nil => intro seen; simp [dedupRemoteAux]
  | cons f rest ih =>
    intro seen
    by_cases hmem : f.inbox ∈ seen
    · simpa [dedupRemoteAux, hmem] using ih seen
    · rw [show dedupRemoteAux seen (f :: rest) =
          Target.RemoteInbox f.inbox f.sharedInbox :: dedupRemoteAux (f.inbox :: seen) rest by
        simp [dedupRemoteAux, hmem]]
      simp only [List.map_cons, List.nodup_cons, Target.dest]
      refine ⟨?_, ih _⟩
      intro hcontra
      have h2 := (dedupRemoteAux_dest_mem rest (f.inbox :: seen) f.inbox).1 hcontra
      exact h2.1 (List.mem_cons_self _ _)

/-- Every target produced by `dedupRemoteAux` is a RemoteInbox. -/
theorem dedupRemoteAux_shape (fs : List Follower) :
    ∀ seen, ∀ t ∈ dedupRemoteAux seen fs, ∃ u sh, t = Target.RemoteInbox u sh := by
  induction fs with
  | nil => intro seen t ht; simp [dedupRemoteAux] at ht
  | cons f rest ih =>
    intro seen t ht
    by_cases hmem : f.inbox ∈ seen
    · exact ih seen t (by simpa [dedupRemoteAux, hmem] using ht)
    · rw [show dedupRemoteAux seen (f :: rest) =
          Target.RemoteInbox f.inbox f.sharedInbox :: dedupRemoteAux (f.inbox :: seen) rest by
        simp [dedupRemoteAux, hmem]] at ht
      rcases List.mem_cons.1 ht with rfl | ht2
      · exact ⟨f.inbox, f.sharedInbox, rfl⟩
      · exact ih _ t ht2

/-- C5: `Resolve` produces exactly one RemoteInbox target per distinct
physical inbox URL among the followers, producing zero targets is not an
error, and on the spec §8 scenario (3 followers, 2 sharing one inbox,
plus 1 local subscriber) it yields exactly 2 RemoteInbox targets and 1
LocalStream target. -/
theorem resolveDeduplication :
    (∀ (g : ActorGraph) (e : Event) (fs : List Follower),
      g.followers e.actor = some fs →
      ∃ rt lt, Resolve g e = .ok (rt, lt) ∧
        (rt.map Target.dest).Nodup ∧
        (∀ u, u ∈ rt.map Target.dest ↔ u ∈ fs.map Follower.inbox) ∧
        (∀ t ∈ rt, ∃ u sh, t = Target.RemoteInbox u sh) ∧
        lt = (g.localSubscribers e.actor).map Target.LocalStream) ∧
    (∀ (g : ActorGraph) (e : Event), g.followers e.actor = some [] →
      Resolve g e = .ok ([], (g.localSubscribers e.actor).map Target.LocalStream)) ∧
    Resolve scenarioGraph scenarioEvent = .ok
      ([Target.RemoteInbox "https://one.example/inbox" true,
        Target.RemoteInbox "https://two.example/inbox" false],
       [Target.LocalStream "localSub"]) := by
  refine ⟨?_, ?_, ?_⟩
  · intro g e fs hf
    refine ⟨dedupRemote fs, (g.localSubscribers e.actor).map Target.LocalStream,
      ?_, dedupRemoteAux_dest_nodup fs [], ?_, dedupRemoteAux_shape fs [], rfl⟩
    · unfold Resolve
      rw [hf]
    · intro u
      simpa using dedupRemoteAux_dest_mem fs [] u
  · intro g e hf
    unfold Resolve
    rw [hf]
    rfl
  · rfl

/-- Witness for C5 at the spec §8 scenario graph and an empty graph. -/
theorem resolveDeduplication_witness :
    (∃ rt lt, Resolve scenarioGraph scenarioEvent = .ok (rt, lt) ∧
      (rt.map Target.dest).Nodup ∧
      (∀ u, u ∈ rt.map Target.dest ↔ u ∈ scenarioFollowers.map Follower.inbox) ∧
      (∀ t ∈ rt, ∃ u sh, t = Target.RemoteInbox u sh) ∧
      lt = (scenarioGraph.localSubscribers scenarioEvent.actor).map Target.LocalStream) ∧
    Resolve noFollowerGraph scenarioEvent =
      .ok ([], (noFollowerGraph.localSubscribers scenarioEvent.actor).map Target.LocalStream) :=
  ⟨resolveDeduplication.1 scenarioGraph scenarioEvent scenarioFollowers rfl,
   resolveDeduplication.2.1 noFollowerGraph scenarioEvent rfl⟩

/-- The capped exponential backoff component is monotone in the attempt
index. -/
theorem backoff_mono (p : RetryPolicy) (a b : Nat) (h : a ≤ b) :
    backoff p a ≤ backoff p b := by
  unfold backoff
  exact min_le_min le_rfl (Nat.mul_le_mul le_rfl (Nat.pow_le_pow_right (by omega) h))

/-- Unfolding equation for `afterFailures` at a successor index. -/
theorem afterFailures_succ (p : RetryPolicy) (now : Nat) (err : String)
    (task : DeliveryTask) (n : Nat) :
    afterFailures p now err task (n + 1) =
      match afterFailures p now err task n with
      | none => none
      | some t =>
        match Retry p now t err with
        | .requeued t2 => some t2
        | .deadLettered _ => none := rfl

/-- A task still below the maximum attempt count after `n` consecutive
transient failures is live, with attempt count `n`. -/
theorem afterFailures_live (p : RetryPolicy) (now : Nat) (err : String)
    (task : DeliveryTask) (h0 : task.attempts = 0) :
    ∀ n, n < p.maxAttempts →
      ∃ t, afterFailures p now err task n = some t ∧ t.attempts = n := by
  intro n
  induction n with
  | zero => exact fun _ => ⟨task, rfl, h0⟩
  | succ n ih =>
    intro hn
    obtain ⟨t, ht, hat⟩ := ih (Nat.lt_of_succ_lt hn)
    have hlt : ¬ p.maxAttempts ≤ t.attempts + 1 := by omega
    refine ⟨{ t with
      attempts := t.attempts + 1
      nextEligible := now + retryDelay p t.attempts
      lastError := some err }, ?_, by simp [hat]⟩
    simp only [afterFailures_succ, ht]
    unfold Retry
    rw [if_neg hlt]

/-- After the configured maximum attempt count of consecutive transient
failures, the task is dead-lettered and never live again. -/
theorem afterFailures_dead (p : RetryPolicy) (now : Nat) (err : String)
    (task : DeliveryTask) (h0 : task.attempts = 0) (hpos : 0 < p.maxAttempts) :
    ∀ k, p.maxAttempts ≤ k → afterFailures p now err task k = none := by
  have hM : afterFailures p now err task p.maxAttempts = none := by
    obtain ⟨M, hMeq⟩ : ∃ M, p.maxAttempts = M + 1 := ⟨p.maxAttempts - 1, by omega⟩
    obtain ⟨t, ht, hat⟩ := afterFailures_live p now err task h0 M (by omega)
    have hge : p.maxAttempts ≤ t.attempts + 1 := by omega
    rw [hMeq]
    simp only [afterFailures_succ, ht]
    unfold Retry
    rw [if_pos hge]
  intro k
  induction k with
  | zero => intro hk; exact absurd hk (by omega)
  | succ k ih =>
    intro hk
    by_cases hkM : p.maxAttempts ≤ k
    · simp only [afterFailures_succ, ih hkM]
    · have hkeq : p.maxAttempts = k + 1 := by omega
      rw [← hkeq]
      exact hM

/-- C2 (amended): on each retry below the maximum attempt count, the
Retry Scheduler sets `next-eligible-time = now + min(maxBackoff,
baseBackoff * 2^attempt) + jitter` and increments the attempt count; the
jitter-free backoff component of the delay is non-decreasing in the
attempt index; and a task is dead-lettered after exactly the configured
maximum attempt count of consecutive transient failures, never retried
further. -/
theorem retrySchedulerBackoffDeadLetter :
    (∀ (p : RetryPolicy) (now : Nat) (task : DeliveryTask) (err : String),
      task.attempts + 1 < p.maxAttempts →
      Retry p now task err = .requeued { task with
        attempts := task.attempts + 1,
        nextEligible := now +
          (min p.maxBackoff (p.baseBackoff * 2 ^ task.attempts) + p.jitter task.attempts),
        lastError := some err }) ∧
    (∀ (p : RetryPolicy) (a b : Nat), a ≤ b → backoff p a ≤ backoff p b) ∧
    (∀ (p : RetryPolicy) (now : Nat) (err : String) (task : DeliveryTask),
      task.attempts = 0 → 0 < p.maxAttempts →
      (∀ n, n < p.maxAttempts →
        ∃ t, afterFailures p now err task n = some t ∧ t.attempts = n) ∧
      (∀ k, p.maxAttempts ≤ k → afterFailures p now err task k = none)) := by
  refine ⟨?_, backoff_mono, ?_⟩
  · intro p now task err h
    unfold Retry
    rw [if_neg (by omega)]
    rfl
  · intro p now err task h0 hpos
    exact ⟨afterFailures_live p now err task h0,
           afterFailures_dead p now err task h0 hpos⟩

/-- Counterexample for C2 as stated: with jitter included (the spec's
formula adds jitter to the capped exponential backoff), the retry delays
need not be non-decreasing — under `policyCx` the jitter draw of the
first attempt exceeds the backoff growth, so the second delay is
strictly smaller than the first, even though `Retry` applies exactly the
spec's formula at both attempts. -/
theorem retryBackoffMonotonicity_counterexample :
    retryDelay policyCx 1 < retryDelay policyCx 0 ∧
    Retry policyCx 0 taskW "boom" = .requeued { taskW with
      attempts := 1,
      nextEligible := 0 + retryDelay policyCx 0,
      lastError := some "boom" } ∧
    Retry policyCx 0 { taskW with attempts := 1 } "boom" = .requeued
      { taskW with
        attempts := 2,
        nextEligible := 0 + retryDelay policyCx 1,
        lastError := some "boom" } :=
  ⟨by decide, by decide, by decide⟩

/-- Witness for C2's amended theorem at the concrete policy `policyW`
(maximum 5 attempts). -/
theorem retrySchedulerBackoffDeadLetter_witness :
    Retry policyW 100 taskW "boom" = .requeued { taskW with
      attempts := 1,
      nextEligible := 100 +
        (min policyW.maxBackoff (policyW.baseBackoff * 2 ^ taskW.attempts) +
          policyW.jitter taskW.attempts),
      lastError := some "boom" } ∧
    backoff policyW 2 ≤ backoff policyW 4 ∧
    (∃ t, afterFailures policyW 100 "boom" taskW 4 = some t ∧ t.attempts = 4) ∧
    afterFailures policyW 100 "boom" taskW 5 = none :=
  ⟨retrySchedulerBackoffDeadLetter.1 policyW 100 taskW "boom" (by decide),
   retrySchedulerBackoffDeadLetter.2.1 policyW 2 4 (by decide),
   (retrySchedulerBackoffDeadLetter.2.2 policyW 100 "boom" taskW rfl (by decide)).1 4 (by decide),
   (retrySchedulerBackoffDeadLetter.2.2 policyW 100 "boom" taskW rfl (by decide)).2 5 (by decide)⟩

/-- Extending the submission trace preserves a session's trace
inclusion. -/
theorem sessionTraceOK_extend {submitted : List Event} {ss : StreamSession}
    (e : Event) (h : sessionTraceOK submitted ss) :
    sessionTraceOK (submitted ++ [e]) ss :=
  h.trans (List.sublist_append_left submitted [e])

/-- Pushing the newly submitted event into a session's buffer preserves
trace inclusion: eviction drops the oldest buffered event, which keeps
the buffer a subsequence. -/
theorem sessionTraceOK_push {submitted : List Event} {ss : StreamSession}
    (hwm : Nat) (e : Event) (h : sessionTraceOK submitted ss) :
    sessionTraceOK (submitted ++ [e]) (pushSession hwm e ss) := by
  unfold pushSession
  by_cases hC : ss.state = SessionState.Closed
  · rw [if_pos hC]
    exact sessionTraceOK_extend e h
  · rw [if_neg hC]
    by_cases hF : hwm ≤ ss.buffer.length
    · rw [if_pos hF]
      show List.Sublist (ss.observed ++ (ss.buffer.tail ++ [e])) (submitted ++ [e])
      rw [← List.append_assoc]
      exact (((List.tail_sublist ss.buffer).append_left ss.observed).trans h).append
        (List.Sublist.refl [e])
    · rw [if_neg hF]
      show List.Sublist (ss.observed ++ (ss.buffer ++ [e])) (submitted ++ [e])
      rw [← List.append_assoc]
      exact h.append (List.Sublist.refl [e])

/-- Appending an event whose sequence number dominates all earlier
events of its account preserves per-account sortedness of the trace. -/
theorem perAccountSorted_extend {submitted : List Event} (e : Event)
    (hs : perAccountSorted submitted)
    (hseq : ∀ e0 ∈ submitted, e0.actor = e.actor → e0.seq < e.seq) :
    perAccountSorted (submitted ++ [e]) := by
  intro a
  rw [List.filter_append, List.map_append, List.pairwise_append]
  refine ⟨hs a, ?_, ?_⟩
  · by_cases he : (e.actor == a) = true <;> simp [List.filter, he]
  · intro x hx y hy
    rcases List.mem_map.1 hx with ⟨e0, he0, rfl⟩
    rcases List.mem_map.1 hy with ⟨e1, he1, rfl⟩
    rcases List.mem_filter.1 he0 with ⟨hmem0, hact0⟩
    rcases List.mem_filter.1 he1 with ⟨hmem1, hact1⟩
    have he1e : e1 = e := by simpa using hmem1
    subst he1e
    refine hseq e0 hmem0 ?_
    have h0 : e0.actor = a := by simpa using hact0
    have h1 : e1.actor = a := by simpa using hact1
    rw [h0, ← h1]

/-- Every Stream Hub step preserves the hub invariant. -/
theorem hubInv_step {hwm : Nat} {s s2 : HubState} (hs : HubStep hwm s s2)
    (h : hubInv s) : hubInv s2 := by
  obtain ⟨hA, hB⟩ := h
  cases hs with
  | submit e targets hseq h2 =>
    subst h2
    constructor
    · intro ss2 hmem
      rcases List.mem_map.1 hmem with ⟨ss, hss, rfl⟩
      by_cases ht : ss.accountID ∈ targets
      · rw [if_pos ht]
        exact sessionTraceOK_push hwm e (hA ss hss)
      · rw [if_neg ht]
        exact sessionTraceOK_extend e (hA ss hss)
    · exact perAccountSorted_extend e hB hseq
  | subscribe sid accountID h2 =>
    subst h2
    refine ⟨?_, hB⟩
    intro ss2 hmem
    rcases List.mem_append.1 hmem with hmem | hmem
    · exact hA ss2 hmem
    · have hss2 : ss2 = newSession sid accountID := by simpa using hmem
      subst hss2
      exact List.nil_sublist _
  | deliver l1 l2 ss e rest hsp hbuf h2 =>
    subst h2
    refine ⟨?_, hB⟩
    intro ss2 hmem
    rcases List.mem_append.1 hmem with hmem | hmem
    · exact hA ss2 (by rw [hsp]; exact List.mem_append_left _ hmem)
    · rcases List.mem_cons.1 hmem with rfl | hmem
      · have horig := hA ss (by rw [hsp]; exact List.mem_append_right _ (List.mem_cons_self _ _))
        show List.Sublist ((ss.observed ++ [e]) ++ rest) s.submitted
        rw [List.append_assoc, List.singleton_append, ← hbuf]
        exact horig
      · exact hA ss2 (by rw [hsp]; exact List.mem_append_right _ (List.mem_cons_of_mem _ hmem))
  | close l1 l2 ss hsp h2 =>
    subst h2
    refine ⟨?_, hB⟩
    intro ss2 hmem
    rcases List.mem_append.1 hmem with hmem | hmem
    · exact hA ss2 (by rw [hsp]; exact List.mem_append_left _ hmem)
    · rcases List.mem_cons.1 hmem with rfl | hmem
      · have horig := hA ss (by rw [hsp]; exact List.mem_append_right _ (List.mem_cons_self _ _))
        show List.Sublist (ss.observed ++ []) s.submitted
        rw [List.append_nil]
        exact (List.sublist_append_left ss.observed ss.buffer).trans horig
      · exact hA ss2 (by rw [hsp]; exact List.mem_append_right _ (List.mem_cons_of_mem _ hmem))

/-- The hub invariant holds in every reachable hub state. -/
theorem hubInv_reachable {hwm : Nat} {s : HubState} (h : HubReachable hwm s) :
    hubInv s := by
  induction h with
  | init =>
    refine ⟨?_, ?_⟩
    · intro ss hmem
      simp [initHub] at hmem
    · intro a
      simp [initHub, perAccountSorted]
  | step s s2 h hs ih => exact hubInv_step hs ih

/-- C1: in every reachable hub state, every Stream Session has observed
the events of any one originating account in non-decreasing (in fact
strictly increasing) sequence-number order: the Stream Hub never emits
two events of one account out of order to any one session. -/
theorem hubPerAccountOrder (hwm : Nat) (s : HubState) (h : HubReachable hwm s)
    (ss : StreamSession) (hss : ss ∈ s.sessions) (a : String) :
    ((ss.observed.filter fun e => e.actor == a).map Event.seq).Pairwise (· ≤ ·) := by
  obtain ⟨hA, hB⟩ := hubInv_reachable h
  have h1 : List.Sublist ss.observed s.submitted :=
    (List.sublist_append_left ss.observed ss.buffer).trans (hA ss hss)
  have h2 := (h1.filter fun e => e.actor == a).map Event.seq
  exact ((hB a).sublist h2).imp fun hlt => Nat.le_of_lt hlt

/-- The witness hub state is reachable in four engine steps. -/
theorem hubW_reachable : HubReachable 4 hubW :=
  HubReachable.step hubT3 hubW
    (HubReachable.step hubT2 hubT3
      (HubReachable.step hubT1 hubT2
        (HubReachable.step initHub hubT1 HubReachable.init
          (HubStep.subscribe initHub hubT1 1 "alice" (by decide)))
        (HubStep.submit hubT1 hubT2 evA1 ["alice"] (by decide) (by decide)))
      (HubStep.submit hubT2 hubT3 evA2 ["alice"] (by decide) (by decide)))
    (HubStep.deliver hubT3 hubW [] [] ⟨1, "alice", .Open, [evA1, evA2], []⟩ evA1 [evA2]
      (by decide) (by decide) (by decide))

/-- Witness for C1 at the concrete reachable hub state `hubW`. -/
theorem hubPerAccountOrder_witness :
    ((hubWSession.observed.filter fun e => e.actor == "alice").map Event.seq).Pairwise
      (· ≤ ·) :=
  hubPerAccountOrder 4 hubW hubW_reachable hubWSession (by decide) "alice"

/-- One push never grows a session's buffer past a positive high-water
mark. -/
theorem pushSession_length {hwm : Nat} (hpos : 0 < hwm) (e : Event)
    (ss : StreamSession) (h : ss.buffer.length ≤ hwm) :
    (pushSession hwm e ss).buffer.length ≤ hwm := by
  unfold pushSession
  by_cases hC : ss.state = SessionState.Closed
  · rw [if_pos hC]
    exact h
  · rw [if_neg hC]
    by_cases hF : hwm ≤ ss.buffer.length
    · rw [if_pos hF]
      show (ss.buffer.tail ++ [e]).length ≤ hwm
      rw [List.length_append, List.length_tail]
      simp only [List.length_singleton]
      omega
    · rw [if_neg hF]
      show (ss.buffer ++ [e]).length ≤ hwm
      rw [List.length_append]
      simp only [List.length_singleton]
      omega

/-- Every Stream Hub step preserves boundedness of all session buffers. -/
theorem buffersBounded_step {hwm : Nat} {s s2 : HubState} (hpos : 0 < hwm)
    (hs : HubStep hwm s s2) (h : buffersBounded hwm s) : buffersBounded hwm s2 := by
  cases hs with
  | submit e targets hseq h2 =>
    subst h2
    intro ss2 hmem
    rcases List.mem_map.1 hmem with ⟨ss, hss, rfl⟩
    by_cases ht : ss.accountID ∈ targets
    · rw [if_pos ht]
      exact pushSession_length hpos e ss (h ss hss)
    · rw [if_neg ht]
      exact h ss hss
  | subscribe sid accountID h2 =>
    subst h2
    intro ss2 hmem
    rcases List.mem_append.1 hmem with hmem | hmem
    · exact h ss2 hmem
    · have hss2 : ss2 = newSession sid accountID := by simpa using hmem
      subst hss2
      simp [newSession]
  | deliver l1 l2 ss e rest hsp hbuf h2 =>
    subst h2
    intro ss2 hmem
    rcases List.mem_append.1 hmem with hmem | hmem
    · exact h ss2 (by rw [hsp]; exact List.mem_append_left _ hmem)
    · rcases List.mem_cons.1 hmem with rfl | hmem
      · have horig := h ss (by rw [hsp]; exact List.mem_append_right _ (List.mem_cons_self _ _))
        show rest.length ≤ hwm
        have hlen : ss.buffer.length = rest.length + 1 := by rw [hbuf]; rfl
        omega
      · exact h ss2 (by rw [hsp]; exact List.mem_append_right _ (List.mem_cons_of_mem _ hmem))
  | close l1 l2 ss hsp h2 =>
    subst h2
    intro ss2 hmem
    rcases List.mem_append.1 hmem with hmem | hmem
    · exact h ss2 (by rw [hsp]; exact List.mem_append_left _ hmem)
    · rcases List.mem_cons.1 hmem with rfl | hmem
      · show ([] : List Event).length ≤ hwm
        simp
      · exact h ss2 (by rw [hsp]; exact List.mem_append_right _ (List.mem_cons_of_mem _ hmem))

/-- Buffer boundedness holds in every reachable hub state. -/
theorem buffersBounded_reachable {hwm : Nat} {s : HubState} (hpos : 0 < hwm)
    (h : HubReachable hwm s) : buffersBounded hwm s := by
  induction h with
  | init =>
    intro ss hmem
    simp [initHub] at hmem
  | step s s2 h hs ih => exact buffersBounded_step hpos hs ih

/-- C3: a push on a session whose buffer is at the high-water mark
evicts exactly the oldest buffered event and admits the new one, and in
every reachable hub state no session buffer ever exceeds a positive
high-water mark. -/
theorem streamBufferEvictionBound :
    (∀ (hwm : Nat) (e : Event) (ss : StreamSession),
      ss.state ≠ SessionState.Closed → ss.buffer.length = hwm →
      pushSession hwm e ss = { ss with buffer := ss.buffer.tail ++ [e] }) ∧
    (∀ (hwm : Nat) (e b : Event) (rest : List Event) (ss : StreamSession),
      ss.state ≠ SessionState.Closed → ss.buffer = b :: rest →
      ss.buffer.length = hwm →
      (pushSession hwm e ss).buffer = rest ++ [e]) ∧
    (∀ (hwm : Nat) (s : HubState), 0 < hwm → HubReachable hwm s →
      ∀ ss ∈ s.sessions, ss.buffer.length ≤ hwm) := by
  have hpush : ∀ (hwm : Nat) (e : Event) (ss : StreamSession),
      ss.state ≠ SessionState.Closed → ss.buffer.length = hwm →
      pushSession hwm e ss = { ss with buffer := ss.buffer.tail ++ [e] } := by
    intro hwm e ss hC hL
    unfold pushSession
    rw [if_neg hC, if_pos (by omega)]
  refine ⟨hpush, ?_, ?_⟩
  · intro hwm e b rest ss hC hB hL
    rw [hpush hwm e ss hC hL, hB]
    rfl
  · intro hwm s hpos hreach
    exact buffersBounded_reachable hpos hreach

/-- Witness for C3: eviction at a concretely full buffer, and the bound
at the concrete reachable hub state. -/
theorem streamBufferEvictionBound_witness :
    pushSession 2 evB1 fullSession =
      { fullSession with buffer := fullSession.buffer.tail ++ [evB1] } ∧
    (pushSession 2 evB1 fullSession).buffer = [evA2] ++ [evB1] ∧
    ∀ ss ∈ hubW.sessions, ss.buffer.length ≤ 4 :=
  ⟨streamBufferEvictionBound.1 2 evB1 fullSession (by decide) (by decide),
   streamBufferEvictionBound.2.1 2 evB1 evA1 [evA2] fullSession
     (by decide) (by decide) (by decide),
   streamBufferEvictionBound.2.2 4 hubW (by decide) hubW_reachable⟩

/-- Every Delivery Queue step preserves distinctness of task keys
across pending and in-flight tasks. -/
theorem queueKeysNodup_step {s s2 : QueueState} (hs : QueueStep s s2)
    (h : queueKeysNodup s) : queueKeysNodup s2 := by
  unfold queueKeysNodup at h ⊢
  cases hs with
  | enqueue t hfresh h2 =>
    subst h2
    have hnotmem : taskKey t ∉ (s.pending ++ s.inFlight.map Prod.snd).map taskKey := by
      intro hc
      rcases List.mem_map.1 hc with ⟨t0, ht0, heq⟩
      exact hfresh t0 ht0 heq
    show (((s.pending ++ [t]) ++ s.inFlight.map Prod.snd).map taskKey).Nodup
    rw [List.append_assoc, List.singleton_append, List.map_append, List.map_cons,
      List.nodup_middle, List.nodup_cons, ← List.map_append]
    exact ⟨hnotmem, h⟩
  | dequeue w t rest hp h2 =>
    subst h2
    rw [hp] at h
    show ((rest ++ (s.inFlight ++ [(w, t)]).map Prod.snd).map taskKey).Nodup
    have hsnd : (s.inFlight ++ [(w, t)]).map Prod.snd = s.inFlight.map Prod.snd ++ [t] := by
      simp
    rw [hsnd]
    have hperm :
        List.Perm (rest ++ (s.inFlight.map Prod.snd ++ [t]))
          ((t :: rest) ++ s.inFlight.map Prod.snd) :=
      (List.Perm.append_left rest
        (List.perm_append_singleton t (s.inFlight.map Prod.snd))).trans List.perm_middle
    exact ((hperm.map taskKey).nodup_iff).2 h
  | complete w t l1 l2 hf h2 =>
    subst h2
    rw [hf] at h
    refine h.sublist ?_
    apply List.Sublist.map
    apply List.Sublist.append_left
    rw [List.map_append, List.map_append, List.map_cons]
    exact (List.sublist_cons_self (w, t).2 (l2.map Prod.snd)).append_left (l1.map Prod.snd)

/-- Task-key distinctness holds in every reachable queue state. -/
theorem queueKeysNodup_reachable {s : QueueState} (h : QueueReachable s) :
    queueKeysNodup s := by
  induction h with
  | init => simp [queueKeysNodup, initQueue]
  | step s s2 h hs ih => exact queueKeysNodup_step hs ih

/-- C7: in every reachable Delivery Queue state, no two in-flight
(worker, task) entries carry the same (event, target) task key:
`Dequeue` never hands the same task to two workers concurrently, so no
duplicate concurrent network sends occur. -/
theorem dequeueAtMostOneWorkerPerTask (s : QueueState) (h : QueueReachable s) :
    s.inFlight.Pairwise fun a b => taskKey a.2 ≠ taskKey b.2 := by
  have hn := queueKeysNodup_reachable h
  unfold queueKeysNodup at hn
  rw [List.map_append] at hn
  have h2 : ((s.inFlight.map Prod.snd).map taskKey).Nodup := hn.of_append_right
  rw [List.map_map] at h2
  exact List.pairwise_map.1 h2

/-- The witness queue state is reachable in four queue steps. -/
theorem queueW_reachable : QueueReachable queueW :=
  QueueReachable.step queueT3 queueW
    (QueueReachable.step queueT2 queueT3
      (QueueReachable.step queueT1 queueT2
        (QueueReachable.step initQueue queueT1 QueueReachable.init
          (QueueStep.enqueue initQueue queueT1 taskW (by decide) (by decide)))
        (QueueStep.enqueue queueT1 queueT2 taskW2 (by decide) (by decide)))
      (QueueStep.dequeue queueT2 queueT3 1 taskW [taskW2] (by decide) (by decide)))
    (QueueStep.dequeue queueT3 queueW 2 taskW2 [] (by decide) (by decide))

/-- Witness for C7 at the concrete reachable queue state with two
checked-out tasks. -/
theorem dequeueAtMostOneWorkerPerTask_witness :
    queueW.inFlight.Pairwise fun a b => taskKey a.2 ≠ taskKey b.2 :=
  dequeueAtMostOneWorkerPerTask queueW queueW_reachable

end Gts
